import Mathlib

/-!
Shallow embedding of the task time-tracking / scoring core of the crm-server
repository (src/routes/attendanceRoutes.js task model, src/models/SalesCall.js
performance model), together with theorems checking the natural-language
specification against it.

Conventions of the embedding:
- timestamps and durations are integers (milliseconds since the epoch), as the
  JS code manipulates Date differences as millisecond numbers;
- user ids are natural numbers;
- JS arithmetic on the score counters is exact integer arithmetic; where the
  source divides, an unnormalized fraction type Frac mirrors the exact value
  (JS double rounding is abstracted away, as all quantities involved are far
  below the 2^53 exactness bound of doubles);
- Math.round on a nonnegative quotient is round-half-up, embedded as
  jsRoundFrac below; the claim-side formulas use the floor function on the
  rational numbers.
-/

/-- Unnormalized fraction, mirroring exact JS quotient computations without
rational-number normalization. All constructors used by the embedding keep the
denominator positive. -/
structure Frac where
  num : Int
  den : Int
deriving DecidableEq, Repr

/-- Embeds an integer as a fraction. -/
def Frac.ofInt (n : Int) : Frac := ⟨n, 1⟩

/-- Sum of two fractions, without normalization. -/
def Frac.add (x y : Frac) : Frac := ⟨x.num * y.den + y.num * x.den, x.den * y.den⟩

/-- Product of two fractions, without normalization. -/
def Frac.mul (x y : Frac) : Frac := ⟨x.num * y.num, x.den * y.den⟩

/-- Strict comparison of two fractions with positive denominators, by cross
multiplication; mirrors a JS less-than on the corresponding quotients. -/
def Frac.blt (x y : Frac) : Bool := decide (x.num * y.den < y.num * x.den)

/-- Rational value denoted by a fraction. -/
def Frac.toRat (x : Frac) : ℚ := (x.num : ℚ) / (x.den : ℚ)

/-- JS Math.round of the quotient num/den for a positive denominator:
round half up, computed as an integer floor division. -/
def jsRoundFrac (x : Frac) : Int := (2 * x.num + x.den).fdiv (2 * x.den)

/-- Claim-side rounding: Math.round of a nonnegative JS number q is the floor
of q + 1/2. -/
def jsRound (q : ℚ) : ℤ := ⌊q + 1 / 2⌋

/-- Task status enumeration, from TASK_STATUS in src/config/constants.js. -/
inductive TaskStatus where
  | pending
  | inProgress
  | completed
  | cancelled
  | overdue
deriving DecidableEq, Repr, BEq

/-- Closed time-tracking session, from the sessions sub-schema of
taskSchema.timeTracking. startTime copies currentSessionStart, which the JS
code allows to be null. -/
structure Session where
  startTime : Option Int
  endTime : Option Int
  duration : Int
  notes : String
deriving DecidableEq, Repr

/-- Per-user ledger entry of taskSchema.timeTracking. -/
structure LedgerEntry where
  user : Nat
  totalTimeSpent : Int
  sessions : List Session
  isActive : Bool
  currentSessionStart : Option Int
  lastActivity : Option Int
deriving DecidableEq, Repr

/-- Roster entry of taskSchema.assignedTo. -/
structure Assignee where
  user : Nat
  role : String
  assignedAt : Int
deriving DecidableEq, Repr

/-- Entry of taskSchema.statusHistory. -/
structure StatusChange where
  status : TaskStatus
  changedBy : Nat
  changedAt : Int
  reason : String
deriving DecidableEq, Repr

/-- Task document state: the taskSchema fields the verified core reads or
writes. persistedStatus models the status last written to the store, which is
what the Mongoose isModified check in the pre-save hooks compares against. -/
structure TaskState where
  status : TaskStatus
  persistedStatus : TaskStatus
  assignedTo : List Assignee
  assignedBy : Nat
  modifiedBy : Option Nat
  statusChangeReason : Option String
  dueDate : Option Int
  startDate : Option Int
  completedDate : Option Int
  estimatedHours : Option Int
  progressPhase : String
  progressPercentage : Int
  timeTracking : List LedgerEntry
  statusHistory : List StatusChange
deriving DecidableEq, Repr

/-- Applies f to the first ledger entry of the given user, mirroring a JS
find followed by in-place mutation of the found element. -/
def updateEntry (l : List LedgerEntry) (u : Nat) (f : LedgerEntry → LedgerEntry) :
    List LedgerEntry :=
  match l with
  | [] => []
  | e :: rest => if e.user == u then f e :: rest else e :: updateEntry rest u f

/-- The first pre-save hook of taskSchema (status history and completion
dates). The source also contains, in the completed branch, the guard
if (this.timeTracking.isActive) followed by this.stopTimeTracking(); reading
the property isActive of the timeTracking Array yields undefined in JS, which
is falsy, so that branch never executes and mutates nothing here. -/
def statusHistoryHook (now : Int) (t : TaskState) : TaskState :=
  if t.status ≠ t.persistedStatus then
    let t1 := { t with statusHistory := t.statusHistory ++
      [{ status := t.status, changedBy := t.modifiedBy.getD t.assignedBy,
         changedAt := now, reason := t.statusChangeReason.getD "Status updated" }] }
    let t2 := if t1.status = TaskStatus.completed then
        { t1 with completedDate := some now } else t1
    if t2.status = TaskStatus.inProgress ∧ t2.startDate = none then
      { t2 with startDate := some now }
    else t2
  else t

/-- Guard of the second pre-save hook of taskSchema: dueDate is set and in
the past, and the status is none of completed, cancelled, overdue. -/
def overdueCond (now : Int) (t : TaskState) : Bool :=
  (match t.dueDate with | some d => decide (d < now) | none => false)
    && !(decide (t.status = TaskStatus.completed))
    && !(decide (t.status = TaskStatus.cancelled))
    && !(decide (t.status = TaskStatus.overdue))

/-- The second pre-save hook of taskSchema: the overdue recomputation rule. -/
def overdueRule (now : Int) (t : TaskState) : TaskState :=
  if overdueCond now t then { t with status := TaskStatus.overdue } else t

/-- Persists a task document: runs both pre-save hooks in registration order
and records the stored status as the new baseline for isModified. -/
def saveDoc (now : Int) (t : TaskState) : TaskState :=
  let t1 := overdueRule now (statusHistoryHook now t)
  { t1 with persistedStatus := t1.status }

/-- Instance method startTimeTracking of taskSchema. -/
def startTimeTracking (t : TaskState) (userId : Nat) (now : Int) :
    Except String TaskState :=
  if !(t.assignedTo.any (fun a => a.user == userId)) then
    Except.error "User is not assigned to this task"
  else
    let found := t.timeTracking.find? (fun e => e.user == userId)
    let entries :=
      match found with
      | some _ => t.timeTracking
      | none => t.timeTracking ++
          [{ user := userId, totalTimeSpent := 0, sessions := [],
             isActive := false, currentSessionStart := none,
             lastActivity := some now }]
    let entry := match found with
      | some e => e
      | none => { user := userId, totalTimeSpent := 0, sessions := [],
                  isActive := false, currentSessionStart := none,
                  lastActivity := some now }
    if entry.isActive then
      Except.error "Time tracking is already active for this user on this task"
    else
      let entries2 := updateEntry entries userId (fun e =>
        { e with isActive := true, currentSessionStart := some now,
                 lastActivity := some now })
      let t1 := { t with timeTracking := entries2 }
      let t2 := if t1.status = TaskStatus.pending then
          { t1 with status := TaskStatus.inProgress } else t1
      Except.ok (saveDoc now t2)

/-- Closes the open session of a ledger entry at time now: the source appends
a session whose duration is the stop time minus currentSessionStart (a JS
Date minus null evaluates the null operand as 0), adds the duration to
totalTimeSpent, and clears the active flags. -/
def closeSession (now : Int) (notes : String) (e : LedgerEntry) : LedgerEntry :=
  let startMs : Int := match e.currentSessionStart with | some s => s | none => 0
  let duration := now - startMs
  { e with
      sessions := e.sessions ++
        [{ startTime := e.currentSessionStart, endTime := some now,
           duration := duration, notes := notes }],
      totalTimeSpent := e.totalTimeSpent + duration,
      lastActivity := some now,
      isActive := false,
      currentSessionStart := none }

/-- Instance method stopTimeTracking of taskSchema. -/
def stopTimeTracking (t : TaskState) (userId : Nat) (now : Int) (notes : String) :
    Except String TaskState :=
  match t.timeTracking.find? (fun e => e.user == userId) with
  | none => Except.error "No time tracking entry found for this user"
  | some e =>
    if !e.isActive then
      Except.error "No active time tracking session for this user on this task"
    else
      Except.ok (saveDoc now
        { t with timeTracking := updateEntry t.timeTracking userId (closeSession now notes) })

/-- Loop body of markAsCompleted: walks the timeTracking array by index (the
JS for-of loop iterates the live array while stopTimeTracking mutates its
elements in place) and stops every entry found active, tagging the closing
session "Task completed". The fuel argument starts at the array length, which
no stop call changes. -/
def stopAllActive (now : Int) : Nat → Nat → TaskState → Except String TaskState
  | 0, _, t => Except.ok t
  | fuel + 1, i, t =>
    match t.timeTracking[i]? with
    | none => Except.ok t
    | some e =>
      if e.isActive then
        match stopTimeTracking t e.user now "Task completed" with
        | Except.error m => Except.error m
        | Except.ok t1 => stopAllActive now fuel (i + 1) t1
      else stopAllActive now fuel (i + 1) t

/-- Instance method markAsCompleted of taskSchema. -/
def markAsCompleted (t : TaskState) (userId : Nat) (now : Int) :
    Except String TaskState :=
  let t1 := { t with
      status := TaskStatus.completed,
      completedDate := some now,
      modifiedBy := some userId,
      progressPhase := "completed",
      progressPercentage := 100 }
  match stopAllActive now t1.timeTracking.length 0 t1 with
  | Except.error m => Except.error m
  | Except.ok t2 => Except.ok (saveDoc now t2)

/-- Instance method removeAssignee of taskSchema. -/
def removeAssignee (t : TaskState) (userId : Nat) (now : Int) :
    Except String TaskState :=
  if t.assignedTo.length ≤ 1 then
    Except.error "Cannot remove the last assignee from task"
  else
    let step : Except String TaskState :=
      match t.timeTracking.find? (fun e => e.user == userId) with
      | some e =>
        if e.isActive then stopTimeTracking t userId now "Removed from task"
        else Except.ok t
      | none => Except.ok t
    match step with
    | Except.error m => Except.error m
    | Except.ok t1 =>
      let t2 := { t1 with
          assignedTo := t1.assignedTo.filter (fun a => a.user != userId),
          timeTracking := t1.timeTracking.filter (fun e => e.user != userId) }
      Except.ok (saveDoc now t2)

/-- Explicit status update followed by a save: the path by which a task
enters a status through a direct field write (the complete action instead
goes through markAsCompleted). -/
def setStatusAndSave (t : TaskState) (st : TaskStatus) (now : Int) : TaskState :=
  saveDoc now { t with status := st }

/-!
Scoring engine: the static Task.calculateEmployeeOfTheMonth of
src/routes/attendanceRoutes.js, lines 932-1035.
-/

/-- Accumulated per-employee score record of calculateEmployeeOfTheMonth.
averageProgress holds the running percentage sum during accumulation and is
overwritten with the rounded average in the post-pass, exactly as the JS code
reuses the same object field. completionRate, onTimeRate and
totalHoursWorkedTenths are the fields the post-pass adds to the JS object
(zero until then); totalHoursWorkedTenths stores ten times the JS
totalHoursWorked, which the source rounds to one decimal. -/
structure EmpScore where
  user : Nat
  totalScore : Int
  tasksCompleted : Nat
  tasksInProgress : Nat
  totalTimeSpent : Int
  onTimeCompletions : Nat
  overdueCompletions : Nat
  averageProgress : Int
  progressCount : Nat
  completionRate : Int
  onTimeRate : Int
  totalHoursWorkedTenths : Int
deriving DecidableEq, Repr

/-- Fresh score record for a newly seen employee. -/
def initScore (u : Nat) : EmpScore :=
  { user := u, totalScore := 0, tasksCompleted := 0, tasksInProgress := 0,
    totalTimeSpent := 0, onTimeCompletions := 0, overdueCompletions := 0,
    averageProgress := 0, progressCount := 0, completionRate := 0,
    onTimeRate := 0, totalHoursWorkedTenths := 0 }

/-- Updates one employee score record with one task, mirroring the body of
the nested loop of calculateEmployeeOfTheMonth (lines 958-997): time spent,
completion metrics with on-time, late and efficiency bonuses, active-work
credit, and the progress bonus. -/
def processPair (task : TaskState) (s : EmpScore) : EmpScore :=
  let utt := task.timeTracking.find? (fun e => e.user == s.user)
  let s1 :=
    match utt with
    | some e => { s with totalTimeSpent := s.totalTimeSpent + e.totalTimeSpent }
    | none => s
  let s2 :=
    if task.status = TaskStatus.completed then
      let sA := { s1 with tasksCompleted := s1.tasksCompleted + 1,
                          totalScore := s1.totalScore + 50 }
      let sB :=
        if (match task.completedDate, task.dueDate with
            | some c, some d => decide (c ≤ d)
            | _, _ => false) then
          { sA with onTimeCompletions := sA.onTimeCompletions + 1,
                    totalScore := sA.totalScore + 30 }
        else
          { sA with overdueCompletions := sA.overdueCompletions + 1,
                    totalScore := sA.totalScore + 10 }
      match task.estimatedHours, utt with
      | some est, some e =>
        if est != 0 && Frac.blt ⟨e.totalTimeSpent, 3600000⟩ (Frac.ofInt est) then
          { sB with totalScore := sB.totalScore + 20 }
        else sB
      | _, _ => sB
    else if task.status = TaskStatus.inProgress then
      { s1 with tasksInProgress := s1.tasksInProgress + 1,
                totalScore := s1.totalScore + 10 }
    else s1
  if 0 < task.progressPercentage then
    { s2 with averageProgress := s2.averageProgress + task.progressPercentage,
              progressCount := s2.progressCount + 1,
              totalScore := s2.totalScore + jsRoundFrac ⟨task.progressPercentage, 10⟩ }
  else s2

/-- Applies f to the first score record of the given user. -/
def updateScore (l : List EmpScore) (u : Nat) (f : EmpScore → EmpScore) :
    List EmpScore :=
  match l with
  | [] => []
  | s :: rest => if s.user == u then f s :: rest else s :: updateScore rest u f

/-- Folds one task into the accumulator: for each roster member, the record
is created lazily on first sight (JS object insertion order is kept by
appending) and then updated with processPair. -/
def accumTask (acc : List EmpScore) (task : TaskState) : List EmpScore :=
  task.assignedTo.foldl
    (fun acc2 a =>
      if acc2.any (fun s => s.user == a.user) then
        updateScore acc2 a.user (processPair task)
      else
        acc2 ++ [processPair task (initScore a.user)])
    acc

/-- Accumulation pass of calculateEmployeeOfTheMonth over the fetched tasks;
the filter mirrors the status clause of the fetch query. -/
def accumScores (tasks : List TaskState) : List EmpScore :=
  (tasks.filter (fun t =>
      t.status == TaskStatus.completed || t.status == TaskStatus.inProgress)).foldl
    accumTask []

/-- Post-pass of the rankings map (lines 1003-1024): average progress,
completion rate, on-time rate and hours worked. -/
def postPass (s : EmpScore) : EmpScore :=
  let avg : Int := if 0 < s.progressCount then
      jsRoundFrac ⟨s.averageProgress, s.progressCount⟩ else 0
  let totalTasks := s.tasksCompleted + s.tasksInProgress
  let cr : Int := if 0 < totalTasks then
      jsRoundFrac ⟨(s.tasksCompleted : Int) * 100, (totalTasks : Int)⟩ else 0
  let otr : Int := if 0 < s.tasksCompleted then
      jsRoundFrac ⟨(s.onTimeCompletions : Int) * 100, (s.tasksCompleted : Int)⟩ else 0
  let thw : Int := jsRoundFrac ⟨s.totalTimeSpent * 10, 3600000⟩
  { s with averageProgress := avg, completionRate := cr, onTimeRate := otr,
           totalHoursWorkedTenths := thw }

/-- Descending order on total score, the comparator (a, b) => b.totalScore -
a.totalScore passed to the JS sort. -/
def scoreGE (a b : EmpScore) : Prop := b.totalScore ≤ a.totalScore

instance : DecidableRel scoreGE :=
  fun a b => inferInstanceAs (Decidable (b.totalScore ≤ a.totalScore))

instance : IsTotal EmpScore scoreGE :=
  ⟨fun a b => le_total b.totalScore a.totalScore⟩

instance : IsTrans EmpScore scoreGE :=
  ⟨fun _ _ _ h1 h2 => le_trans h2 h1⟩

/-- Result object of Task.calculateEmployeeOfTheMonth. -/
structure EotmResult where
  employeeOfTheMonth : Option EmpScore
  topPerformers : List EmpScore
  allRankings : List EmpScore
  periodStart : Int
  periodEnd : Int
deriving DecidableEq, Repr

/-- Static Task.calculateEmployeeOfTheMonth over the list of tasks fetched
for the window: accumulate, post-process, keep employees with completed
tasks, sort by total score descending (the JS engine sort is stable, so it
computes the insertion sort of the list under scoreGE). -/
def calculateEmployeeOfTheMonth (tasks : List TaskState) (startDate endDate : Int) :
    EotmResult :=
  let rankings := List.insertionSort scoreGE
    (((accumScores tasks).map postPass).filter (fun s => 0 < s.tasksCompleted))
  { employeeOfTheMonth := rankings.head?,
    topPerformers := rankings.take 5,
    allRankings := rankings,
    periodStart := startDate,
    periodEnd := endDate }

/-!
Performance aggregator: performanceSchema of src/models/SalesCall.js, its
virtual rates and calculateOverallScore (lines 522-588), and the static
Performance.calculateEmployeeOfTheMonth (lines 591-608).
-/

/-- Counter fields of a Performance record read by calculateOverallScore. -/
structure Performance where
  tasksCompleted : Nat
  tasksAssigned : Nat
  tasksOverdue : Nat
  attendanceDays : Nat
  totalWorkingDays : Nat
  salesCalls : Nat
  salesConversions : Nat
deriving DecidableEq, Repr

/-- Virtual taskCompletionRate: tasksCompleted / tasksAssigned * 100, zero on
a zero denominator. -/
def taskCompletionRate (p : Performance) : Frac :=
  if 0 < p.tasksAssigned then ⟨(p.tasksCompleted : Int) * 100, (p.tasksAssigned : Int)⟩
  else Frac.ofInt 0

/-- Virtual attendanceRate: attendanceDays / totalWorkingDays * 100, zero on
a zero denominator. -/
def attendanceRate (p : Performance) : Frac :=
  if 0 < p.totalWorkingDays then ⟨(p.attendanceDays : Int) * 100, (p.totalWorkingDays : Int)⟩
  else Frac.ofInt 0

/-- Virtual salesConversionRate: salesConversions / salesCalls * 100, zero on
a zero denominator. -/
def salesConversionRate (p : Performance) : Frac :=
  if 0 < p.salesCalls then ⟨(p.salesConversions : Int) * 100, (p.salesCalls : Int)⟩
  else Frac.ofInt 0

/-- On-time delivery rate computed inside calculateOverallScore:
(tasksAssigned - tasksOverdue) / tasksAssigned * 100, defaulting to 100 (not
0) when tasksAssigned is zero. -/
def onTimeRateOf (p : Performance) : Frac :=
  if 0 < p.tasksAssigned then
    ⟨((p.tasksAssigned : Int) - (p.tasksOverdue : Int)) * 100, (p.tasksAssigned : Int)⟩
  else Frac.ofInt 100

/-- Instance method calculateOverallScore: accumulates the weighted terms
(the source also accumulates a weightSum variable that it never reads),
rounds, and derives the letter grade from the rounded score. Returns the pair
(overallScore, grade) the method stores on the record. -/
def calculateOverallScore (p : Performance) : Int × String :=
  let score1 := Frac.mul (taskCompletionRate p) ⟨3, 10⟩
  let weightSum1 : Frac := ⟨3, 10⟩
  let score2 := Frac.add score1 (Frac.mul (attendanceRate p) ⟨1, 4⟩)
  let weightSum2 := Frac.add weightSum1 ⟨1, 4⟩
  let score3 := Frac.add score2 (Frac.mul (onTimeRateOf p) ⟨1, 5⟩)
  let weightSum3 := Frac.add weightSum2 ⟨1, 5⟩
  let scoreAndWeight :=
    if 0 < p.salesCalls then
      (Frac.add score3 (Frac.mul (salesConversionRate p) ⟨1, 4⟩), Frac.add weightSum3 ⟨1, 4⟩)
    else (score3, weightSum3)
  let overall := jsRoundFrac scoreAndWeight.1
  let grade :=
    if 95 ≤ overall then "A+"
    else if 90 ≤ overall then "A"
    else if 85 ≤ overall then "B+"
    else if 80 ≤ overall then "B"
    else if 75 ≤ overall then "C+"
    else if 70 ≤ overall then "C"
    else if 60 ≤ overall then "D"
    else "F"
  (overall, grade)

/-- Weight total the source accumulates and then ignores: the rounded score
is never divided by it. Exposed so the absence of renormalization can be
stated. -/
def appliedWeightSum (p : Performance) : Frac :=
  if 0 < p.salesCalls then Frac.add (Frac.add (Frac.add ⟨3, 10⟩ ⟨1, 4⟩) ⟨1, 5⟩) ⟨1, 4⟩
  else Frac.add (Frac.add ⟨3, 10⟩ ⟨1, 4⟩) ⟨1, 5⟩

/-- Period enumeration of performanceSchema. -/
inductive Period where
  | weekly
  | monthly
  | quarterly
  | yearly
deriving DecidableEq, Repr, BEq

/-- Fields of a stored Performance record read by the static
calculateEmployeeOfTheMonth; overallScore is the persisted rounded score and
id stands for the record identity. -/
structure PerfRecord where
  id : Nat
  period : Period
  startDate : Int
  endDate : Int
  isActive : Bool
  overallScore : Int
deriving DecidableEq, Repr

/-- Fetch predicate of Performance.calculateEmployeeOfTheMonth for the month
window [s, e]: active monthly records whose date range lies inside the
window. -/
def eotmQuery (s e : Int) (r : PerfRecord) : Bool :=
  r.period == Period.monthly && decide (s ≤ r.startDate) && decide (r.endDate ≤ e) && r.isActive

/-- Static Performance.calculateEmployeeOfTheMonth over the stored records,
with s and e the first and last day of the requested month: returns null when
no record matches, and otherwise reduces the fetched list keeping the record
with the strictly higher stored overallScore, so the earliest fetched record
wins ties. -/
def Performance.calculateEmployeeOfTheMonth (records : List PerfRecord) (s e : Int) :
    Option PerfRecord :=
  match records.filter (eotmQuery s e) with
  | [] => none
  | best :: rest =>
    some (rest.foldl
      (fun best current =>
        if best.overallScore < current.overallScore then current else best)
      best)

/-!
Supporting lemmas: rational semantics of Frac, the rounding function, and
field-preservation facts about the save hooks.
-/

theorem Frac.toRat_ofInt (n : Int) : (Frac.ofInt n).toRat = (n : ℚ) := by
  simp [Frac.ofInt, Frac.toRat]

theorem Frac.toRat_mul (x y : Frac) : (x.mul y).toRat = x.toRat * y.toRat := by
  simp only [Frac.mul, Frac.toRat]
  push_cast
  rw [div_mul_div_comm]

theorem Frac.toRat_add (x y : Frac) (hx : (x.den : ℚ) ≠ 0) (hy : (y.den : ℚ) ≠ 0) :
    (x.add y).toRat = x.toRat + y.toRat := by
  simp only [Frac.add, Frac.toRat]
  push_cast
  field_simp

theorem Frac.blt_iff (x y : Frac) (hx : 0 < x.den) (hy : 0 < y.den) :
    x.blt y = true ↔ x.toRat < y.toRat := by
  simp only [Frac.blt, Frac.toRat, decide_eq_true_eq]
  rw [div_lt_div_iff₀ (by exact_mod_cast hx) (by exact_mod_cast hy)]
  exact_mod_cast Iff.rfl

theorem jsRoundFrac_eq (x : Frac) (h : 0 < x.den) :
    jsRoundFrac x = jsRound x.toRat := by
  have hden : (x.den : ℚ) ≠ 0 := by exact_mod_cast h.ne.symm
  have h2 : (0 : ℤ) < 2 * x.den := by omega
  have hq : x.toRat + 1 / 2 = ((2 * x.num + x.den : ℤ) : ℚ) / (((2 * x.den).toNat : ℕ) : ℚ) := by
    have htn : (((2 * x.den).toNat : ℕ) : ℚ) = ((2 * x.den : ℤ) : ℚ) := by
      have hz : (((2 * x.den).toNat : ℕ) : ℤ) = 2 * x.den := Int.toNat_of_nonneg h2.le
      exact_mod_cast hz
    rw [htn]
    simp only [Frac.toRat]
    push_cast
    field_simp
    ring
  rw [jsRound, hq, Rat.floor_intCast_div_natCast, jsRoundFrac,
    Int.fdiv_eq_ediv _ h2.le]
  congr 1
  exact (Int.toNat_of_nonneg h2.le).symm

theorem statusHistoryHook_timeTracking (now : Int) (t : TaskState) :
    (statusHistoryHook now t).timeTracking = t.timeTracking := by
  unfold statusHistoryHook
  split
  · dsimp only
    repeat' split
    all_goals rfl
  · rfl

theorem statusHistoryHook_assignedTo (now : Int) (t : TaskState) :
    (statusHistoryHook now t).assignedTo = t.assignedTo := by
  unfold statusHistoryHook
  split
  · dsimp only
    repeat' split
    all_goals rfl
  · rfl

theorem statusHistoryHook_status (now : Int) (t : TaskState) :
    (statusHistoryHook now t).status = t.status := by
  unfold statusHistoryHook
  split
  · dsimp only
    repeat' split
    all_goals rfl
  · rfl

theorem statusHistoryHook_dueDate (now : Int) (t : TaskState) :
    (statusHistoryHook now t).dueDate = t.dueDate := by
  unfold statusHistoryHook
  split
  · dsimp only
    repeat' split
    all_goals rfl
  · rfl

theorem overdueRule_timeTracking (now : Int) (t : TaskState) :
    (overdueRule now t).timeTracking = t.timeTracking := by
  unfold overdueRule
  split <;> rfl

theorem overdueRule_assignedTo (now : Int) (t : TaskState) :
    (overdueRule now t).assignedTo = t.assignedTo := by
  unfold overdueRule
  split <;> rfl

theorem saveDoc_timeTracking (now : Int) (t : TaskState) :
    (saveDoc now t).timeTracking = t.timeTracking := by
  unfold saveDoc
  rw [overdueRule_timeTracking, statusHistoryHook_timeTracking]

theorem saveDoc_assignedTo (now : Int) (t : TaskState) :
    (saveDoc now t).assignedTo = t.assignedTo := by
  unfold saveDoc
  rw [overdueRule_assignedTo, statusHistoryHook_assignedTo]

theorem overdueRule_idem (now : Int) (t : TaskState) :
    overdueRule now (overdueRule now t) = overdueRule now t := by
  by_cases h : overdueCond now t = true
  · have h2 : overdueCond now { t with status := TaskStatus.overdue } = false := by
      simp [overdueCond]
    simp [overdueRule, h, h2]
  · simp [overdueRule, h]

theorem overdueRule_persisted (now : Int) (s : TaskState) (x : TaskStatus) :
    overdueRule now { s with persistedStatus := x }
      = { overdueRule now s with persistedStatus := x } := by
  have hc : overdueCond now { s with persistedStatus := x } = overdueCond now s := rfl
  by_cases h : overdueCond now s = true
  · simp [overdueRule, hc, h]
  · simp [overdueRule, hc, h]

theorem statusHistoryHook_fix (now : Int) (s : TaskState)
    (hs : s.status = s.persistedStatus) : statusHistoryHook now s = s := by
  unfold statusHistoryHook
  rw [if_neg]
  simp [hs]

theorem saveDoc_idem (now : Int) (t : TaskState) :
    saveDoc now (saveDoc now t) = saveDoc now t := by
  unfold saveDoc
  dsimp only
  rw [statusHistoryHook_fix now _ rfl, overdueRule_persisted,
    overdueRule_idem]

/-- C6: on every save of a task with a set dueDate, if now is past the due
date and the status is not completed, cancelled or overdue, the saved status
is overdue; a completed or cancelled task keeps its status on save regardless
of the due date; and saving again is the identity, so a pending task past its
due date transitions to overdue exactly once. -/
theorem c6_overdue_on_save (t : TaskState) (d now : Int)
    (hd : t.dueDate = some d) :
    (d < now → t.status ≠ TaskStatus.completed → t.status ≠ TaskStatus.cancelled →
      t.status ≠ TaskStatus.overdue → (saveDoc now t).status = TaskStatus.overdue) ∧
    (t.status = TaskStatus.completed ∨ t.status = TaskStatus.cancelled →
      (saveDoc now t).status = t.status) ∧
    saveDoc now (saveDoc now t) = saveDoc now t := by
  refine ⟨?_, ?_, saveDoc_idem now t⟩
  · intro h1 h2 h3 h4
    have hcond : overdueCond now (statusHistoryHook now t) = true := by
      simp [overdueCond, statusHistoryHook_status, statusHistoryHook_dueDate, hd,
        h1, h2, h3, h4]
    simp [saveDoc, overdueRule, hcond]
  · intro h
    have hcond : overdueCond now (statusHistoryHook now t) = false := by
      rcases h with h | h <;>
        simp [overdueCond, statusHistoryHook_status, h]
    simp [saveDoc, overdueRule, hcond, statusHistoryHook_status]

/-- Concrete pending task with a past due date, used to instantiate the
overdue recomputation theorem. -/
def overdueSample : TaskState :=
  { status := TaskStatus.pending, persistedStatus := TaskStatus.pending,
    assignedTo := [{ user := 1, role := "primary", assignedAt := 0 }],
    assignedBy := 2, modifiedBy := none, statusChangeReason := none,
    dueDate := some 5, startDate := none, completedDate := none,
    estimatedHours := none, progressPhase := "planning",
    progressPercentage := 0,
    timeTracking := [], statusHistory := [] }

/-- Witness for C6: the sample pending task with dueDate 5 saved at time 10
comes out overdue. -/
theorem c6_overdue_on_save_witness :
    (saveDoc 10 overdueSample).status = TaskStatus.overdue :=
  (c6_overdue_on_save overdueSample 5 10 rfl).1 (by decide) (by decide)
    (by decide) (by decide)

/-- Concrete task with one assignee whose ledger entry is actively tracking,
progress mid-flight, used to exercise the completion paths. The due date lies
in the future so the overdue rule stays quiet. -/
def activeTrackingTask : TaskState :=
  { status := TaskStatus.inProgress, persistedStatus := TaskStatus.inProgress,
    assignedTo := [{ user := 1, role := "primary", assignedAt := 0 }],
    assignedBy := 2, modifiedBy := none, statusChangeReason := none,
    dueDate := some 1000000, startDate := some 1, completedDate := none,
    estimatedHours := none, progressPhase := "development",
    progressPercentage := 40,
    timeTracking := [{ user := 1, totalTimeSpent := 0, sessions := [],
                       isActive := true, currentSessionStart := some 100,
                       lastActivity := some 100 }],
    statusHistory := [] }

/-- C5: evaluation of the two ways a task enters the completed status on the
task above at time 500. Via an explicit status write followed by a save, the
pre-save hook sets completedDate but leaves the active ledger entry running
and the progress fields untouched, because its guard reads the isActive
property of the timeTracking array, which is undefined in JS; via the
markAsCompleted action, the active entry is force-stopped with the session
note Task completed and the progress fields are set. The claim that both
paths behave like markAsCompleted therefore fails on the status-update
path. -/
theorem c5_completed_entry_effects :
    (setStatusAndSave activeTrackingTask TaskStatus.completed 500).completedDate
        = some 500 ∧
    (setStatusAndSave activeTrackingTask TaskStatus.completed 500).status
        = TaskStatus.completed ∧
    (setStatusAndSave activeTrackingTask TaskStatus.completed 500).timeTracking
        = activeTrackingTask.timeTracking ∧
    (∃ e ∈ (setStatusAndSave activeTrackingTask TaskStatus.completed 500).timeTracking,
        e.isActive = true) ∧
    (setStatusAndSave activeTrackingTask TaskStatus.completed 500).progressPhase
        = "development" ∧
    (setStatusAndSave activeTrackingTask TaskStatus.completed 500).progressPercentage
        = 40 ∧
    (markAsCompleted activeTrackingTask 1 500).toOption
      = some ((markAsCompleted activeTrackingTask 1 500).toOption.getD
          activeTrackingTask) ∧
    (∀ e ∈ ((markAsCompleted activeTrackingTask 1 500).toOption.getD
        activeTrackingTask).timeTracking, e.isActive = false) ∧
    (∃ e ∈ ((markAsCompleted activeTrackingTask 1 500).toOption.getD
        activeTrackingTask).timeTracking,
      ∃ sess ∈ e.sessions, sess.notes = "Task completed") ∧
    ((markAsCompleted activeTrackingTask 1 500).toOption.getD
        activeTrackingTask).progressPhase = "completed" ∧
    ((markAsCompleted activeTrackingTask 1 500).toOption.getD
        activeTrackingTask).progressPercentage = 100 := by
  decide

/-- Letter-grade thresholds as the claim states them, applied to the rounded
overall score. -/
def specGrade (n : Int) : String :=
  if 95 ≤ n then "A+"
  else if 90 ≤ n then "A"
  else if 85 ≤ n then "B+"
  else if 80 ≤ n then "B"
  else if 75 ≤ n then "C+"
  else if 70 ≤ n then "C"
  else if 60 ≤ n then "D"
  else "F"

/-- Performance record whose raw weighted score is exactly 94.999: task rate
83.33 percent contributes 24.999, attendance, on-time delivery and sales
conversion are all perfect. -/
def perf94999 : Performance :=
  { tasksCompleted := 83330, tasksAssigned := 100000, tasksOverdue := 0,
    attendanceDays := 1, totalWorkingDays := 1, salesCalls := 1,
    salesConversions := 1 }

/-- Performance record whose raw weighted score is exactly 94. -/
def perf94 : Performance :=
  { tasksCompleted := 8, tasksAssigned := 10, tasksOverdue := 0,
    attendanceDays := 1, totalWorkingDays := 1, salesCalls := 1,
    salesConversions := 1 }

/-- C8: the stored grade is obtained by applying the claimed thresholds to
the already-rounded overallScore, and the boundary behavior holds: a raw
weighted score of 94.999 rounds to 95 and grades A+, while 94 grades A. -/
theorem c8_grade_thresholds (p : Performance) :
    (calculateOverallScore p).2 = specGrade (calculateOverallScore p).1 ∧
    (calculateOverallScore perf94999).1 = 95 ∧
    (calculateOverallScore perf94999).2 = "A+" ∧
    (calculateOverallScore perf94).1 = 94 ∧
    (calculateOverallScore perf94).2 = "A" ∧
    jsRound (94999 / 1000 : ℚ) = 95 := by
  refine ⟨rfl, by decide, by decide, by decide, by decide, ?_⟩
  rw [jsRound, Int.floor_eq_iff]
  constructor <;> norm_num

/-- Claim-side task completion rate in the rationals, written as the spec
states it. -/
def specTaskCompletionRate (p : Performance) : ℚ :=
  if p.tasksAssigned = 0 then 0
  else (p.tasksCompleted : ℚ) / (p.tasksAssigned : ℚ) * 100

/-- Claim-side attendance rate in the rationals. -/
def specAttendanceRate (p : Performance) : ℚ :=
  if p.totalWorkingDays = 0 then 0
  else (p.attendanceDays : ℚ) / (p.totalWorkingDays : ℚ) * 100

/-- Claim-side sales conversion rate in the rationals. -/
def specSalesConversionRate (p : Performance) : ℚ :=
  if p.salesCalls = 0 then 0
  else (p.salesConversions : ℚ) / (p.salesCalls : ℚ) * 100

/-- Claim-side on-time rate in the rationals, with its asymmetric default of
100 on an empty assignment count. -/
def specOnTimeRate (p : Performance) : ℚ :=
  if p.tasksAssigned = 0 then 100
  else ((p.tasksAssigned : ℚ) - (p.tasksOverdue : ℚ)) / (p.tasksAssigned : ℚ) * 100

theorem taskCompletionRate_den_pos (p : Performance) :
    0 < (taskCompletionRate p).den := by
  unfold taskCompletionRate
  split
  · rename_i h
    dsimp only
    exact_mod_cast h
  · simp [Frac.ofInt]

theorem attendanceRate_den_pos (p : Performance) :
    0 < (attendanceRate p).den := by
  unfold attendanceRate
  split
  · rename_i h
    dsimp only
    exact_mod_cast h
  · simp [Frac.ofInt]

theorem salesConversionRate_den_pos (p : Performance) :
    0 < (salesConversionRate p).den := by
  unfold salesConversionRate
  split
  · rename_i h
    dsimp only
    exact_mod_cast h
  · simp [Frac.ofInt]

theorem onTimeRateOf_den_pos (p : Performance) :
    0 < (onTimeRateOf p).den := by
  unfold onTimeRateOf
  split
  · rename_i h
    dsimp only
    exact_mod_cast h
  · simp [Frac.ofInt]

theorem taskCompletionRate_toRat (p : Performance) :
    (taskCompletionRate p).toRat = specTaskCompletionRate p := by
  unfold taskCompletionRate specTaskCompletionRate
  split
  · rename_i h
    rw [if_neg (by omega)]
    simp only [Frac.toRat]
    push_cast
    rw [mul_div_right_comm]
  · rename_i h
    rw [if_pos (by omega)]
    simp [Frac.ofInt, Frac.toRat]

theorem attendanceRate_toRat (p : Performance) :
    (attendanceRate p).toRat = specAttendanceRate p := by
  unfold attendanceRate specAttendanceRate
  split
  · rename_i h
    rw [if_neg (by omega)]
    simp only [Frac.toRat]
    push_cast
    rw [mul_div_right_comm]
  · rename_i h
    rw [if_pos (by omega)]
    simp [Frac.ofInt, Frac.toRat]

theorem salesConversionRate_toRat (p : Performance) :
    (salesConversionRate p).toRat = specSalesConversionRate p := by
  unfold salesConversionRate specSalesConversionRate
  split
  · rename_i h
    rw [if_neg (by omega)]
    simp only [Frac.toRat]
    push_cast
    rw [mul_div_right_comm]
  · rename_i h
    rw [if_pos (by omega)]
    simp [Frac.ofInt, Frac.toRat]

theorem onTimeRateOf_toRat (p : Performance) :
    (onTimeRateOf p).toRat = specOnTimeRate p := by
  unfold onTimeRateOf specOnTimeRate
  split
  · rename_i h
    rw [if_neg (by omega)]
    simp only [Frac.toRat]
    push_cast
    rw [mul_div_right_comm]
  · rename_i h
    rw [if_pos (by omega)]
    simp [Frac.ofInt, Frac.toRat]

theorem Frac.add_den_pos (x y : Frac) (hx : 0 < x.den) (hy : 0 < y.den) :
    0 < (x.add y).den := by
  dsimp only [Frac.add]
  exact mul_pos hx hy

theorem Frac.mul_den_pos (x y : Frac) (hx : 0 < x.den) (hy : 0 < y.den) :
    0 < (x.mul y).den := by
  dsimp only [Frac.mul]
  exact mul_pos hx hy

theorem Frac.toRat_add_pos (x y : Frac) (hx : 0 < x.den) (hy : 0 < y.den) :
    (x.add y).toRat = x.toRat + y.toRat :=
  Frac.toRat_add x y (by exact_mod_cast hx.ne.symm) (by exact_mod_cast hy.ne.symm)

/-- C7: the stored overallScore is the rounded weighted sum of the spec-side
rational rates, with the sales term simply omitted (weights not renormalized)
when salesCalls is zero; the rates default to 0 on a zero denominator, except
the on-time rate which defaults to 100; and the accumulated-but-unused weight
total is 3/4 in the no-sales case. -/
theorem c7_overall_score (p : Performance) :
    (calculateOverallScore p).1 = jsRound
      (specTaskCompletionRate p * (3 / 10) + specAttendanceRate p * (1 / 4)
        + specOnTimeRate p * (1 / 5)
        + (if 0 < p.salesCalls then specSalesConversionRate p * (1 / 4) else 0)) ∧
    (p.tasksAssigned = 0 →
      (taskCompletionRate p).toRat = 0 ∧ (onTimeRateOf p).toRat = 100) ∧
    (p.totalWorkingDays = 0 → (attendanceRate p).toRat = 0) ∧
    (p.salesCalls = 0 →
      (salesConversionRate p).toRat = 0 ∧ (appliedWeightSum p).toRat = 3 / 4) := by
  refine ⟨?_, ?_, ?_, ?_⟩
  · have dtc := taskCompletionRate_den_pos p
    have dar := attendanceRate_den_pos p
    have dot := onTimeRateOf_den_pos p
    have dsc := salesConversionRate_den_pos p
    have w310 : ((⟨3, 10⟩ : Frac)).toRat = 3 / 10 := by norm_num [Frac.toRat]
    have w14 : ((⟨1, 4⟩ : Frac)).toRat = 1 / 4 := by norm_num [Frac.toRat]
    have w15 : ((⟨1, 5⟩ : Frac)).toRat = 1 / 5 := by norm_num [Frac.toRat]
    have m1den : 0 < (Frac.mul (taskCompletionRate p) ⟨3, 10⟩).den :=
      Frac.mul_den_pos _ _ dtc (by norm_num)
    have m2den : 0 < (Frac.mul (attendanceRate p) ⟨1, 4⟩).den :=
      Frac.mul_den_pos _ _ dar (by norm_num)
    have m3den : 0 < (Frac.mul (onTimeRateOf p) ⟨1, 5⟩).den :=
      Frac.mul_den_pos _ _ dot (by norm_num)
    have m4den : 0 < (Frac.mul (salesConversionRate p) ⟨1, 4⟩).den :=
      Frac.mul_den_pos _ _ dsc (by norm_num)
    have m1 : (Frac.mul (taskCompletionRate p) ⟨3, 10⟩).toRat
        = specTaskCompletionRate p * (3 / 10) := by
      rw [Frac.toRat_mul, taskCompletionRate_toRat, w310]
    have m2 : (Frac.mul (attendanceRate p) ⟨1, 4⟩).toRat
        = specAttendanceRate p * (1 / 4) := by
      rw [Frac.toRat_mul, attendanceRate_toRat, w14]
    have m3 : (Frac.mul (onTimeRateOf p) ⟨1, 5⟩).toRat
        = specOnTimeRate p * (1 / 5) := by
      rw [Frac.toRat_mul, onTimeRateOf_toRat, w15]
    have m4 : (Frac.mul (salesConversionRate p) ⟨1, 4⟩).toRat
        = specSalesConversionRate p * (1 / 4) := by
      rw [Frac.toRat_mul, salesConversionRate_toRat, w14]
    have a1den : 0 < (Frac.add (Frac.mul (taskCompletionRate p) ⟨3, 10⟩)
        (Frac.mul (attendanceRate p) ⟨1, 4⟩)).den :=
      Frac.add_den_pos _ _ m1den m2den
    have a1 : (Frac.add (Frac.mul (taskCompletionRate p) ⟨3, 10⟩)
        (Frac.mul (attendanceRate p) ⟨1, 4⟩)).toRat
        = specTaskCompletionRate p * (3 / 10) + specAttendanceRate p * (1 / 4) := by
      rw [Frac.toRat_add_pos _ _ m1den m2den, m1, m2]
    have a2den : 0 < (Frac.add (Frac.add (Frac.mul (taskCompletionRate p) ⟨3, 10⟩)
        (Frac.mul (attendanceRate p) ⟨1, 4⟩)) (Frac.mul (onTimeRateOf p) ⟨1, 5⟩)).den :=
      Frac.add_den_pos _ _ a1den m3den
    have a2 : (Frac.add (Frac.add (Frac.mul (taskCompletionRate p) ⟨3, 10⟩)
        (Frac.mul (attendanceRate p) ⟨1, 4⟩)) (Frac.mul (onTimeRateOf p) ⟨1, 5⟩)).toRat
        = specTaskCompletionRate p * (3 / 10) + specAttendanceRate p * (1 / 4)
          + specOnTimeRate p * (1 / 5) := by
      rw [Frac.toRat_add_pos _ _ a1den m3den, a1, m3]
    by_cases hs : 0 < p.salesCalls
    · have a3den : 0 < (Frac.add (Frac.add (Frac.add
          (Frac.mul (taskCompletionRate p) ⟨3, 10⟩)
          (Frac.mul (attendanceRate p) ⟨1, 4⟩)) (Frac.mul (onTimeRateOf p) ⟨1, 5⟩))
          (Frac.mul (salesConversionRate p) ⟨1, 4⟩)).den :=
        Frac.add_den_pos _ _ a2den m4den
      have hcalc : (calculateOverallScore p).1 = jsRoundFrac
          (Frac.add (Frac.add (Frac.add (Frac.mul (taskCompletionRate p) ⟨3, 10⟩)
            (Frac.mul (attendanceRate p) ⟨1, 4⟩)) (Frac.mul (onTimeRateOf p) ⟨1, 5⟩))
            (Frac.mul (salesConversionRate p) ⟨1, 4⟩)) := by
        simp [calculateOverallScore, hs]
      rw [hcalc, jsRoundFrac_eq _ a3den, Frac.toRat_add_pos _ _ a2den m4den, a2, m4,
        if_pos hs]
    · have hcalc : (calculateOverallScore p).1 = jsRoundFrac
          (Frac.add (Frac.add (Frac.mul (taskCompletionRate p) ⟨3, 10⟩)
            (Frac.mul (attendanceRate p) ⟨1, 4⟩)) (Frac.mul (onTimeRateOf p) ⟨1, 5⟩)) := by
        simp [calculateOverallScore, hs]
      rw [hcalc, jsRoundFrac_eq _ a2den, a2, if_neg hs, add_zero]
  · intro h
    rw [taskCompletionRate_toRat, onTimeRateOf_toRat]
    simp [specTaskCompletionRate, specOnTimeRate, h]
  · intro h
    rw [attendanceRate_toRat]
    simp [specAttendanceRate, h]
  · intro h
    rw [salesConversionRate_toRat]
    refine ⟨by simp [specSalesConversionRate, h], ?_⟩
    have hns : ¬ 0 < p.salesCalls := by omega
    simp only [appliedWeightSum, hns, if_false]
    norm_num [Frac.add, Frac.toRat]

/-- Performance record with no sales calls and no assigned tasks, showing the
asymmetric defaults and the 3/4 weight total. -/
def perfNoSales : Performance :=
  { tasksCompleted := 0, tasksAssigned := 0, tasksOverdue := 0,
    attendanceDays := 3, totalWorkingDays := 4, salesCalls := 0,
    salesConversions := 0 }

/-- Witness for C7 at the no-sales record: the score formula instance and the
asymmetric zero-denominator defaults. -/
theorem c7_overall_score_witness :
    ((calculateOverallScore perfNoSales).1 = jsRound
      (specTaskCompletionRate perfNoSales * (3 / 10)
        + specAttendanceRate perfNoSales * (1 / 4)
        + specOnTimeRate perfNoSales * (1 / 5)
        + (if 0 < perfNoSales.salesCalls then
            specSalesConversionRate perfNoSales * (1 / 4) else 0))) ∧
    (taskCompletionRate perfNoSales).toRat = 0 ∧
    (onTimeRateOf perfNoSales).toRat = 100 ∧
    (appliedWeightSum perfNoSales).toRat = 3 / 4 := by
  have h := c7_overall_score perfNoSales
  exact ⟨h.1, (h.2.1 rfl).1, (h.2.1 rfl).2, (h.2.2.2 rfl).2⟩

/-- Scenario task of the claim: completed one day before its due date,
estimated at 5 hours, with 4 hours (14400000 ms) on the assignee ledger and
no progress percentage recorded. -/
def onTimeScenarioTask : TaskState :=
  { status := TaskStatus.completed, persistedStatus := TaskStatus.completed,
    assignedTo := [{ user := 1, role := "primary", assignedAt := 0 }],
    assignedBy := 2, modifiedBy := none, statusChangeReason := none,
    dueDate := some 1000, startDate := some 1, completedDate := some 900,
    estimatedHours := some 5, progressPhase := "completed",
    progressPercentage := 0,
    timeTracking := [{ user := 1, totalTimeSpent := 14400000, sessions := [],
                       isActive := false, currentSessionStart := none,
                       lastActivity := some 500 }],
    statusHistory := [] }

set_option maxHeartbeats 1000000 in
/-- C1: one task contributes to one assignee exactly 50 points for being
completed, plus 30 when completedDate is at most dueDate and 10 otherwise,
plus 20 when estimatedHours is set (nonzero) and the ledger time in hours is
strictly below it, or 10 points when the task is in progress, on top of the
progress bonus; the efficiency comparison is exactly the strict hours
comparison of the claim; and the scenario employee scores exactly 100. -/
theorem c1_completion_scoring (task : TaskState) (s : EmpScore) :
    ((processPair task s).totalScore = s.totalScore
      + (if task.status = TaskStatus.completed then
          (50 : Int)
          + (if (match task.completedDate, task.dueDate with
                 | some c, some d => decide (c ≤ d)
                 | _, _ => false) then (30 : Int) else 10)
          + (if (match task.estimatedHours,
                   task.timeTracking.find? (fun e => e.user == s.user) with
                 | some est, some e =>
                     est != 0 && Frac.blt ⟨e.totalTimeSpent, 3600000⟩ (Frac.ofInt est)
                 | _, _ => false) then (20 : Int) else 0)
         else 0)
      + (if task.status = TaskStatus.inProgress then (10 : Int) else 0)
      + (if 0 < task.progressPercentage then
          jsRoundFrac ⟨task.progressPercentage, 10⟩ else 0)) ∧
    (∀ tts est : Int,
      Frac.blt ⟨tts, 3600000⟩ (Frac.ofInt est) = true
        ↔ (tts : ℚ) / 3600000 < (est : ℚ)) ∧
    (processPair onTimeScenarioTask (initScore 1)).totalScore = 100 := by
  refine ⟨?_, ?_, by decide⟩
  · unfold processPair
    rcases hutt : task.timeTracking.find? (fun e => e.user == s.user) with _ | e <;>
      cases hst : task.status <;>
        simp only [hutt, hst] <;>
          (repeat' split) <;>
            simp_all <;>
              omega
  · intro tts est
    rw [Frac.blt_iff _ _ (by norm_num) (by norm_num [Frac.ofInt])]
    simp [Frac.toRat, Frac.ofInt]

/-- Task in progress with progress percentage 15, where Math.round(15 / 10)
is 2 while the floor is 1. -/
def progressBonusTask : TaskState :=
  { status := TaskStatus.inProgress, persistedStatus := TaskStatus.inProgress,
    assignedTo := [{ user := 7, role := "primary", assignedAt := 0 }],
    assignedBy := 2, modifiedBy := none, statusChangeReason := none,
    dueDate := some 1000, startDate := some 1, completedDate := none,
    estimatedHours := none, progressPhase := "development",
    progressPercentage := 15,
    timeTracking := [], statusHistory := [] }

/-- C3 counterexample: at progress percentage 15 on an in-progress task the
code awards 10 + round(1.5) = 12 points, not the 10 + floor(1.5) = 11 points
the claim states. -/
theorem c3_floor_counterexample :
    (processPair progressBonusTask (initScore 7)).totalScore
      ≠ (initScore 7).totalScore + 10 + ⌊(15 : ℚ) / 10⌋ := by
  have h1 : (processPair progressBonusTask (initScore 7)).totalScore = 12 := by
    decide
  have h2 : ⌊(15 : ℚ) / 10⌋ = 1 := by
    rw [Int.floor_eq_iff]
    norm_num
  rw [h1, h2]
  decide

set_option maxHeartbeats 1000000 in
/-- C3 amended: for a task-assignee pair with positive progress percentage,
the percentage is added to the average accumulator, the count is incremented,
and the total score receives exactly Math.round(percentage / 10) additional
points, that is the rational percentage / 10 rounded half up, which lies
between 0 and 10 for percentages up to 100. The claim said floor instead of
round half up. -/
theorem c3_progress_bonus (task : TaskState) (s : EmpScore)
    (hp : 0 < task.progressPercentage) (hle : task.progressPercentage ≤ 100) :
    (processPair task s).averageProgress
        = s.averageProgress + task.progressPercentage ∧
    (processPair task s).progressCount = s.progressCount + 1 ∧
    (processPair task s).totalScore
        = (processPair { task with progressPercentage := 0 } s).totalScore
          + jsRoundFrac ⟨task.progressPercentage, 10⟩ ∧
    jsRoundFrac ⟨task.progressPercentage, 10⟩
        = jsRound ((task.progressPercentage : ℚ) / 10) ∧
    0 ≤ jsRoundFrac ⟨task.progressPercentage, 10⟩ ∧
    jsRoundFrac ⟨task.progressPercentage, 10⟩ ≤ 10 := by
  have hqp : (0 : ℚ) < (task.progressPercentage : ℚ) := by exact_mod_cast hp
  have hqle : (task.progressPercentage : ℚ) ≤ 100 := by exact_mod_cast hle
  have hrnd : jsRoundFrac ⟨task.progressPercentage, 10⟩
      = jsRound ((task.progressPercentage : ℚ) / 10) := by
    rw [jsRoundFrac_eq _ (by norm_num)]
    simp [Frac.toRat]
  refine ⟨?_, ?_, ?_, hrnd, ?_, ?_⟩
  · unfold processPair
    rcases hutt : task.timeTracking.find? (fun e => e.user == s.user) with _ | e <;>
      cases hst : task.status <;>
        simp only [hutt, hst] <;>
          (repeat' split) <;>
            simp_all
  · unfold processPair
    rcases hutt : task.timeTracking.find? (fun e => e.user == s.user) with _ | e <;>
      cases hst : task.status <;>
        simp only [hutt, hst] <;>
          (repeat' split) <;>
            simp_all
  · unfold processPair
    rcases hutt : task.timeTracking.find? (fun e => e.user == s.user) with _ | e <;>
      cases hst : task.status <;>
        simp only [hutt, hst] <;>
          (repeat' split) <;>
            simp_all
  · rw [hrnd, jsRound, Int.le_floor]
    push_cast
    linarith
  · rw [hrnd, jsRound]
    have hlt : ⌊(task.progressPercentage : ℚ) / 10 + 1 / 2⌋ < 11 := by
      rw [Int.floor_lt]
      push_cast
      linarith
    omega

/-- Witness for the amended C3 at the concrete progress-15 task: accumulator,
count, and a bonus of round(1.5) = 2 points on top of the in-progress credit. -/
theorem c3_progress_bonus_witness :
    (processPair progressBonusTask (initScore 7)).averageProgress
        = (initScore 7).averageProgress + progressBonusTask.progressPercentage ∧
    (processPair progressBonusTask (initScore 7)).progressCount
        = (initScore 7).progressCount + 1 ∧
    (processPair progressBonusTask (initScore 7)).totalScore
        = (processPair { progressBonusTask with progressPercentage := 0 }
            (initScore 7)).totalScore
          + jsRoundFrac ⟨progressBonusTask.progressPercentage, 10⟩ ∧
    jsRoundFrac ⟨progressBonusTask.progressPercentage, 10⟩
        = jsRound ((progressBonusTask.progressPercentage : ℚ) / 10) ∧
    0 ≤ jsRoundFrac ⟨progressBonusTask.progressPercentage, 10⟩ ∧
    jsRoundFrac ⟨progressBonusTask.progressPercentage, 10⟩ ≤ 10 :=
  c3_progress_bonus progressBonusTask (initScore 7) (by decide) (by decide)

/-- C2: allRankings is exactly the accumulated employee list, post-processed,
restricted to employees with at least one completed task (in-progress-only
contributors are dropped even though they hold points), arranged in
descending totalScore order; employeeOfTheMonth is its head or null on an
empty list; topPerformers is its first five entries; and the period bounds
are echoed back. -/
theorem c2_rankings (tasks : List TaskState) (s e : Int) :
    (calculateEmployeeOfTheMonth tasks s e).allRankings.Perm
        (((accumScores tasks).map postPass).filter (fun x => 0 < x.tasksCompleted)) ∧
    (calculateEmployeeOfTheMonth tasks s e).allRankings.Pairwise
        (fun a b => b.totalScore ≤ a.totalScore) ∧
    (calculateEmployeeOfTheMonth tasks s e).employeeOfTheMonth
        = (calculateEmployeeOfTheMonth tasks s e).allRankings.head? ∧
    (calculateEmployeeOfTheMonth tasks s e).topPerformers
        = (calculateEmployeeOfTheMonth tasks s e).allRankings.take 5 ∧
    (calculateEmployeeOfTheMonth tasks s e).periodStart = s ∧
    (calculateEmployeeOfTheMonth tasks s e).periodEnd = e := by
  refine ⟨?_, ?_, rfl, rfl, rfl, rfl⟩
  · exact List.perm_insertionSort scoreGE _
  · exact List.sorted_insertionSort scoreGE _

/-- Specification of the strict-greater reduce of
Performance.calculateEmployeeOfTheMonth: its result is a member of the list,
its score bounds every member, and it is the first member carrying its score,
so the earliest fetched record wins ties. -/
theorem eotmBest_spec (h : PerfRecord) (rest : List PerfRecord) :
    (rest.foldl (fun best current =>
        if best.overallScore < current.overallScore then current else best) h)
        ∈ h :: rest ∧
    (∀ x ∈ h :: rest, x.overallScore ≤ (rest.foldl (fun best current =>
        if best.overallScore < current.overallScore then current else best)
        h).overallScore) ∧
    (h :: rest).find? (fun x => x.overallScore == (rest.foldl
        (fun best current =>
          if best.overallScore < current.overallScore then current else best)
        h).overallScore) = some (rest.foldl (fun best current =>
          if best.overallScore < current.overallScore then current else best) h) := by
  induction rest generalizing h with
  | nil =>
    refine ⟨by simp, by simp, ?_⟩
    simp [List.find?]
  | cons c rest ih =>
    by_cases hlt : h.overallScore < c.overallScore
    · have hfold : (c :: rest).foldl (fun best current =>
          if best.overallScore < current.overallScore then current else best) h
          = rest.foldl (fun best current =>
            if best.overallScore < current.overallScore then current else best) c := by
        simp [List.foldl_cons, hlt]
      obtain ⟨hmem, hbound, hfind⟩ := ih c
      rw [hfold]
      refine ⟨List.mem_cons_of_mem _ hmem, ?_, ?_⟩
      · intro x hx
        rcases List.mem_cons.mp hx with hx | hx
        · subst hx
          exact le_of_lt (lt_of_lt_of_le hlt (hbound c (List.mem_cons_self c rest)))
        · exact hbound x hx
      · have hne : (h.overallScore == (rest.foldl (fun best current =>
            if best.overallScore < current.overallScore then current else best)
            c).overallScore) = false := by
          have := lt_of_lt_of_le hlt (hbound c (List.mem_cons_self c rest))
          simp only [beq_eq_false_iff_ne]
          omega
        simp only [List.find?_cons, hne]
        exact hfind
    · have hfold : (c :: rest).foldl (fun best current =>
          if best.overallScore < current.overallScore then current else best) h
          = rest.foldl (fun best current =>
            if best.overallScore < current.overallScore then current else best) h := by
        simp [List.foldl_cons, hlt]
      obtain ⟨hmem, hbound, hfind⟩ := ih h
      rw [hfold]
      have hhle : h.overallScore ≤ (rest.foldl (fun best current =>
          if best.overallScore < current.overallScore then current else best)
          h).overallScore := hbound h (List.mem_cons_self h rest)
      refine ⟨?_, ?_, ?_⟩
      · rcases List.mem_cons.mp hmem with hx | hx
        · rw [hx]
          exact List.mem_cons_self h (c :: rest)
        · exact List.mem_cons_of_mem _ (List.mem_cons_of_mem _ hx)
      · intro x hx
        rcases List.mem_cons.mp hx with hx | hx
        · subst hx
          exact hbound x (List.mem_cons_self x rest)
        · rcases List.mem_cons.mp hx with hx | hx
          · subst hx
            omega
          · exact hbound x (List.mem_cons_of_mem _ hx)
      · by_cases hph : (h.overallScore == (rest.foldl (fun best current =>
            if best.overallScore < current.overallScore then current else best)
            h).overallScore) = true
        · simp only [List.find?_cons, hph] at hfind ⊢
          exact hfind
        · have hph2 : (h.overallScore == (rest.foldl (fun best current =>
              if best.overallScore < current.overallScore then current else best)
              h).overallScore) = false := by
            simpa using hph
          simp only [List.find?_cons, hph2] at hfind
          have hpc : (c.overallScore == (rest.foldl (fun best current =>
              if best.overallScore < current.overallScore then current else best)
              h).overallScore) = false := by
            simp only [beq_eq_false_iff_ne]
            simp only [beq_eq_false_iff_ne] at hph2
            omega
          simp only [List.find?_cons, hph2, hpc]
          exact hfind

/-- C10: the Performance-model employee-of-the-month selection over the
fetched records returns null exactly when no active monthly record lies in
the month window, and otherwise a record of the filtered list whose stored
overallScore is maximal, the earliest fetched one on ties. -/
theorem c10_record_eotm (records : List PerfRecord) (s e : Int) :
    (Performance.calculateEmployeeOfTheMonth records s e = none
      ↔ records.filter (eotmQuery s e) = []) ∧
    (∀ r, Performance.calculateEmployeeOfTheMonth records s e = some r →
      r ∈ records.filter (eotmQuery s e) ∧
      (∀ x ∈ records.filter (eotmQuery s e), x.overallScore ≤ r.overallScore) ∧
      (records.filter (eotmQuery s e)).find?
          (fun x => x.overallScore == r.overallScore) = some r) := by
  constructor
  · unfold Performance.calculateEmployeeOfTheMonth
    rcases hl : records.filter (eotmQuery s e) with _ | ⟨hd, rest⟩ <;> simp
  · intro r hr
    unfold Performance.calculateEmployeeOfTheMonth at hr
    rcases hl : records.filter (eotmQuery s e) with _ | ⟨hd, rest⟩
    · rw [hl] at hr
      simp at hr
    · rw [hl] at hr
      simp only [Option.some.injEq] at hr
      obtain ⟨hmem, hbound, hfind⟩ := eotmBest_spec hd rest
      rw [← hr]
      exact ⟨hmem, hbound, hfind⟩

/-- Stored performance records for the C10 witness: two active monthly
records tie at score 90 behind neither the weekly nor the inactive record,
and the earlier of the two wins. -/
def sampleRecords : List PerfRecord :=
  [{ id := 1, period := Period.monthly, startDate := 0, endDate := 30,
     isActive := true, overallScore := 80 },
   { id := 2, period := Period.monthly, startDate := 0, endDate := 30,
     isActive := true, overallScore := 90 },
   { id := 3, period := Period.monthly, startDate := 0, endDate := 30,
     isActive := true, overallScore := 90 },
   { id := 4, period := Period.weekly, startDate := 0, endDate := 7,
     isActive := true, overallScore := 99 },
   { id := 5, period := Period.monthly, startDate := 0, endDate := 30,
     isActive := false, overallScore := 99 }]

/-- Expected winner among the sample records. -/
def sampleWinner : PerfRecord :=
  { id := 2, period := Period.monthly, startDate := 0, endDate := 30,
    isActive := true, overallScore := 90 }

/-- Witness for C10: on the sample records the selection returns the earlier
of the two tied maximal active monthly records. -/
theorem c10_record_eotm_witness :
    sampleWinner ∈ sampleRecords.filter (eotmQuery 0 31) ∧
    (∀ x ∈ sampleRecords.filter (eotmQuery 0 31),
      x.overallScore ≤ sampleWinner.overallScore) ∧
    (sampleRecords.filter (eotmQuery 0 31)).find?
        (fun x => x.overallScore == sampleWinner.overallScore)
      = some sampleWinner :=
  (c10_record_eotm sampleRecords 0 31).2 sampleWinner (by decide)

theorem all_filter_self {α : Type} (p : α → Bool) (l : List α) :
    (l.filter p).all p = true := by
  rw [List.all_eq_true]
  intro x hx
  exact List.of_mem_filter hx

/-- C9: removing an assignee from a roster of size at most one fails with the
last-assignee error (the document is returned unchanged because the method
throws before mutating); on a roster of at least two, the call succeeds, the
removed user appears in neither the roster nor the ledger of the result, a
still-active ledger session of that user is first force-stopped with the note
Removed from task, and an absent or inactive entry is deleted without any
stop. -/
theorem c9_removeAssignee (t : TaskState) (u : Nat) (now : Int) :
    (t.assignedTo.length ≤ 1 →
      removeAssignee t u now
        = Except.error "Cannot remove the last assignee from task") ∧
    (2 ≤ t.assignedTo.length →
      ∃ t2, removeAssignee t u now = Except.ok t2 ∧
        t2.assignedTo.all (fun a => a.user != u) = true ∧
        t2.timeTracking.all (fun en => en.user != u) = true ∧
        ((∃ en, t.timeTracking.find? (fun x => x.user == u) = some en ∧
            en.isActive = true) →
          ∃ t1, stopTimeTracking t u now "Removed from task" = Except.ok t1 ∧
            t2 = saveDoc now
              { t1 with
                  assignedTo := t1.assignedTo.filter (fun a => a.user != u),
                  timeTracking := t1.timeTracking.filter (fun en => en.user != u) }) ∧
        ((t.timeTracking.find? (fun x => x.user == u) = none ∨
            (∃ en, t.timeTracking.find? (fun x => x.user == u) = some en ∧
              en.isActive = false)) →
          t2 = saveDoc now
            { t with
                assignedTo := t.assignedTo.filter (fun a => a.user != u),
                timeTracking := t.timeTracking.filter (fun en => en.user != u) })) := by
  constructor
  · intro hle
    unfold removeAssignee
    rw [if_pos hle]
  · intro hge
    have hnle : ¬ t.assignedTo.length ≤ 1 := by omega
    unfold removeAssignee
    rw [if_neg hnle]
    rcases hfind : t.timeTracking.find? (fun x => x.user == u) with _ | en
    · rw [hfind]
      dsimp only
      refine ⟨_, rfl, ?_, ?_, ?_, fun _ => rfl⟩
      · rw [saveDoc_assignedTo]
        exact all_filter_self _ _
      · rw [saveDoc_timeTracking]
        exact all_filter_self _ _
      · rintro ⟨en, hen, -⟩
        cases hen
    · by_cases hact : en.isActive = true
      · have hstop : stopTimeTracking t u now "Removed from task"
            = Except.ok (saveDoc now
              { t with timeTracking :=
                  updateEntry t.timeTracking u (closeSession now "Removed from task") }) := by
          unfold stopTimeTracking
          rw [hfind]
          simp [hact]
        have hif : (if en.isActive = true then
              stopTimeTracking t u now "Removed from task"
            else Except.ok t)
            = Except.ok (saveDoc now
              { t with timeTracking :=
                  updateEntry t.timeTracking u (closeSession now "Removed from task") }) := by
          rw [if_pos hact, hstop]
        rw [hfind]
        dsimp only
        rw [hif]
        dsimp only
        refine ⟨_, rfl, ?_, ?_, ?_, ?_⟩
        · rw [saveDoc_assignedTo]
          exact all_filter_self _ _
        · rw [saveDoc_timeTracking]
          exact all_filter_self _ _
        · intro _
          exact ⟨_, hstop, rfl⟩
        · rintro (hnone | ⟨en2, hen2, hact2⟩)
          · cases hnone
          · cases hen2
            rw [hact] at hact2
            cases hact2
      · have hif : (if en.isActive = true then
              stopTimeTracking t u now "Removed from task"
            else Except.ok t) = Except.ok t := by
          rw [if_neg hact]
        rw [hfind]
        dsimp only
        rw [hif]
        dsimp only
        refine ⟨_, rfl, ?_, ?_, ?_, fun _ => rfl⟩
        · rw [saveDoc_assignedTo]
          exact all_filter_self _ _
        · rw [saveDoc_timeTracking]
          exact all_filter_self _ _
        · rintro ⟨en2, hen2, hact2⟩
          cases hen2
          exact absurd hact2 hact

/-- Concrete task with two assignees whose first one is actively tracking,
used to instantiate removeAssignee. -/
def twoAssigneeTask : TaskState :=
  { status := TaskStatus.inProgress, persistedStatus := TaskStatus.inProgress,
    assignedTo := [{ user := 5, role := "primary", assignedAt := 0 },
                   { user := 6, role := "collaborator", assignedAt := 1 }],
    assignedBy := 2, modifiedBy := none, statusChangeReason := none,
    dueDate := some 1000000, startDate := some 1, completedDate := none,
    estimatedHours := none, progressPhase := "development",
    progressPercentage := 20,
    timeTracking := [{ user := 5, totalTimeSpent := 0, sessions := [],
                       isActive := true, currentSessionStart := some 100,
                       lastActivity := some 100 }],
    statusHistory := [] }

/-- Witness for C9: removing the actively tracking first assignee from the
two-assignee task succeeds, deletes roster and ledger entries, and goes
through the force-stop with the note Removed from task. -/
theorem c9_removeAssignee_witness :
    ∃ t2, removeAssignee twoAssigneeTask 5 500 = Except.ok t2 ∧
      t2.assignedTo.all (fun a => a.user != 5) = true ∧
      t2.timeTracking.all (fun en => en.user != 5) = true ∧
      ((∃ en, twoAssigneeTask.timeTracking.find? (fun x => x.user == 5) = some en ∧
          en.isActive = true) →
        ∃ t1, stopTimeTracking twoAssigneeTask 5 500 "Removed from task"
            = Except.ok t1 ∧
          t2 = saveDoc 500
            { t1 with
                assignedTo := t1.assignedTo.filter (fun a => a.user != 5),
                timeTracking := t1.timeTracking.filter (fun en => en.user != 5) }) ∧
      ((twoAssigneeTask.timeTracking.find? (fun x => x.user == 5) = none ∨
          (∃ en, twoAssigneeTask.timeTracking.find? (fun x => x.user == 5) = some en ∧
            en.isActive = false)) →
        t2 = saveDoc 500
          { twoAssigneeTask with
              assignedTo := twoAssigneeTask.assignedTo.filter (fun a => a.user != 5),
              timeTracking := twoAssigneeTask.timeTracking.filter
                (fun en => en.user != 5) }) :=
  (c9_removeAssignee twoAssigneeTask 5 500).2 (by decide)

/-- Ledger invariant of the claim: the accumulated total equals the sum of
the durations of the closed sessions, so an open session contributes nothing
until it is stopped. -/
def ledgerInv (e : LedgerEntry) : Prop :=
  e.totalTimeSpent = (e.sessions.map Session.duration).sum

instance (e : LedgerEntry) : Decidable (ledgerInv e) :=
  inferInstanceAs (Decidable (e.totalTimeSpent = (e.sessions.map Session.duration).sum))

/-- One call of the time-tracking API. -/
inductive TTOp where
  | start (u : Nat) (now : Int)
  | stop (u : Nat) (now : Int) (notes : String)

/-- Applies one call to the stored document; a failed call (the method
throws) leaves the stored document unchanged. -/
def applyOp (t : TaskState) : TTOp → TaskState
  | TTOp.start u now =>
    match startTimeTracking t u now with
    | Except.ok t1 => t1
    | Except.error _ => t
  | TTOp.stop u now notes =>
    match stopTimeTracking t u now notes with
    | Except.ok t1 => t1
    | Except.error _ => t

/-- Runs a finite sequence of start and stop calls. -/
def runOps (t : TaskState) (ops : List TTOp) : TaskState := ops.foldl applyOp t

theorem mem_updateEntry {l : List LedgerEntry} {u : Nat}
    {f : LedgerEntry → LedgerEntry} {x : LedgerEntry}
    (hx : x ∈ updateEntry l u f) :
    x ∈ l ∨ ∃ e, e ∈ l ∧ x = f e := by
  induction l with
  | nil => simp [updateEntry] at hx
  | cons e rest ih =>
    rw [updateEntry] at hx
    by_cases he : (e.user == u) = true
    · rw [if_pos he] at hx
      rcases List.mem_cons.mp hx with h | h
      · exact Or.inr ⟨e, List.mem_cons_self e rest, h⟩
      · exact Or.inl (List.mem_cons_of_mem _ h)
    · rw [if_neg he] at hx
      rcases List.mem_cons.mp hx with h | h
      · exact Or.inl (by rw [h]; exact List.mem_cons_self e rest)
      · rcases ih h with h2 | ⟨e2, he2, hxe2⟩
        · exact Or.inl (List.mem_cons_of_mem _ h2)
        · exact Or.inr ⟨e2, List.mem_cons_of_mem _ he2, hxe2⟩

theorem ledgerInv_closeSession (now : Int) (notes : String) (e : LedgerEntry)
    (h : ledgerInv e) : ledgerInv (closeSession now notes e) := by
  unfold ledgerInv closeSession
  dsimp only
  rw [List.map_append, List.sum_append]
  unfold ledgerInv at h
  simp [h]

theorem stopTimeTracking_ok (t : TaskState) (u : Nat) (now : Int) (notes : String)
    (e : LedgerEntry)
    (hfind : t.timeTracking.find? (fun x => x.user == u) = some e)
    (hact : e.isActive = true) :
    stopTimeTracking t u now notes
      = Except.ok (saveDoc now
          { t with timeTracking := updateEntry t.timeTracking u (closeSession now notes) }) := by
  unfold stopTimeTracking
  rw [hfind]
  simp [hact]

theorem stopTimeTracking_inv (t : TaskState) (u : Nat) (now : Int) (notes : String)
    (t1 : TaskState) (hok : stopTimeTracking t u now notes = Except.ok t1)
    (h : ∀ e ∈ t.timeTracking, ledgerInv e) :
    ∀ x ∈ t1.timeTracking, ledgerInv x := by
  unfold stopTimeTracking at hok
  rcases hfind : t.timeTracking.find? (fun x => x.user == u) with _ | e
  · rw [hfind] at hok
    cases hok
  · rw [hfind] at hok
    dsimp only at hok
    split at hok
    · cases hok
    · cases hok
      rw [saveDoc_timeTracking]
      intro x hx
      rcases mem_updateEntry hx with h1 | ⟨e2, he2, hxe⟩
      · exact h x h1
      · rw [hxe]
        exact ledgerInv_closeSession _ _ _ (h e2 he2)

theorem inv_updateEntry (l : List LedgerEntry) (u : Nat)
    (f : LedgerEntry → LedgerEntry)
    (hl : ∀ e ∈ l, ledgerInv e)
    (hf : ∀ e, ledgerInv e → ledgerInv (f e)) :
    ∀ x ∈ updateEntry l u f, ledgerInv x := by
  intro x hx
  rcases mem_updateEntry hx with h1 | ⟨e2, he2, hxe⟩
  · exact hl x h1
  · rw [hxe]
    exact hf e2 (hl e2 he2)

theorem startTimeTracking_inv (t : TaskState) (u : Nat) (now : Int)
    (t1 : TaskState) (hok : startTimeTracking t u now = Except.ok t1)
    (h : ∀ e ∈ t.timeTracking, ledgerInv e) :
    ∀ x ∈ t1.timeTracking, ledgerInv x := by
  unfold startTimeTracking at hok
  split at hok
  · cases hok
  · dsimp only at hok
    rcases hfound : t.timeTracking.find? (fun e => e.user == u) with _ | efound <;>
      rw [hfound] at hok <;> dsimp only at hok
    · split at hok
      · rename_i hfalse
        exact absurd hfalse (by decide)
      · cases hok
        rw [saveDoc_timeTracking]
        split
        · exact inv_updateEntry _ u _
            (fun e he => by
              rcases List.mem_append.mp he with h2 | h2
              · exact h e h2
              · rw [List.mem_singleton.mp h2]
                rfl)
            (fun e he => he)
        · exact inv_updateEntry _ u _
            (fun e he => by
              rcases List.mem_append.mp he with h2 | h2
              · exact h e h2
              · rw [List.mem_singleton.mp h2]
                rfl)
            (fun e he => he)
    · split at hok
      · cases hok
      · cases hok
        rw [saveDoc_timeTracking]
        split
        · exact inv_updateEntry _ u _ h (fun e he => he)
        · exact inv_updateEntry _ u _ h (fun e he => he)

theorem applyOp_inv (t : TaskState) (op : TTOp)
    (h : ∀ e ∈ t.timeTracking, ledgerInv e) :
    ∀ e ∈ (applyOp t op).timeTracking, ledgerInv e := by
  cases op with
  | start u now =>
    unfold applyOp
    dsimp only
    rcases hres : startTimeTracking t u now with m | t1
    · exact h
    · exact startTimeTracking_inv t u now t1 hres h
  | stop u now notes =>
    unfold applyOp
    dsimp only
    rcases hres : stopTimeTracking t u now notes with m | t1
    · exact h
    · exact stopTimeTracking_inv t u now notes t1 hres h

theorem runOps_inv (ops : List TTOp) (t : TaskState)
    (h : ∀ e ∈ t.timeTracking, ledgerInv e) :
    ∀ e ∈ (runOps t ops).timeTracking, ledgerInv e := by
  induction ops generalizing t with
  | nil => exact h
  | cons op rest ih => exact ih (applyOp t op) (applyOp_inv t op h)

/-- C4: after any finite sequence of start and stop calls (failed calls leave
the document unchanged), every ledger entry satisfies the invariant that
totalTimeSpent is the sum of the durations of its closed sessions, so an open
session contributes nothing until stopped; a stop on an entry that the find
locates and that is active succeeds and rewrites exactly that entry through
closeSession; and closeSession appends the session whose duration is the stop
time minus currentSessionStart, adds that duration to the total, and clears
isActive and currentSessionStart. -/
theorem c4_time_tracking_invariant (t0 : TaskState) (ops : List TTOp)
    (hinv : ∀ e ∈ t0.timeTracking, ledgerInv e) :
    (∀ e ∈ (runOps t0 ops).timeTracking, ledgerInv e) ∧
    (∀ (u : Nat) (now : Int) (notes : String) (e : LedgerEntry),
      (runOps t0 ops).timeTracking.find? (fun x => x.user == u) = some e →
      e.isActive = true →
      stopTimeTracking (runOps t0 ops) u now notes
        = Except.ok (saveDoc now
            { runOps t0 ops with
                timeTracking := updateEntry (runOps t0 ops).timeTracking u
                  (closeSession now notes) }) ∧
      (saveDoc now
          { runOps t0 ops with
              timeTracking := updateEntry (runOps t0 ops).timeTracking u
                (closeSession now notes) }).timeTracking
        = updateEntry (runOps t0 ops).timeTracking u (closeSession now notes)) ∧
    (∀ (e : LedgerEntry) (now : Int) (notes : String) (st : Int),
      e.currentSessionStart = some st →
      (closeSession now notes e).sessions
          = e.sessions ++ [{ startTime := some st, endTime := some now,
                             duration := now - st, notes := notes }] ∧
      (closeSession now notes e).totalTimeSpent = e.totalTimeSpent + (now - st) ∧
      (closeSession now notes e).isActive = false ∧
      (closeSession now notes e).currentSessionStart = none) := by
  refine ⟨runOps_inv ops t0 hinv, ?_, ?_⟩
  · intro u now notes e hfind hact
    exact ⟨stopTimeTracking_ok _ u now notes e hfind hact, saveDoc_timeTracking _ _⟩
  · intro e now notes st hst
    unfold closeSession
    rw [hst]
    exact ⟨rfl, rfl, rfl, rfl⟩

/-- Task used to drive the time-tracking operation sequence. -/
def trackedTask : TaskState :=
  { status := TaskStatus.pending, persistedStatus := TaskStatus.pending,
    assignedTo := [{ user := 1, role := "primary", assignedAt := 0 }],
    assignedBy := 2, modifiedBy := none, statusChangeReason := none,
    dueDate := some 1000000, startDate := none, completedDate := none,
    estimatedHours := some 2, progressPhase := "planning",
    progressPercentage := 0,
    timeTracking := [], statusHistory := [] }

/-- Operation sequence for the C4 witness: a session of 150 ms, a failing
stop with no active session, a failing start by an unassigned user, then a
fresh open session left running. -/
def sampleOps : List TTOp :=
  [TTOp.start 1 100, TTOp.stop 1 250 "work", TTOp.stop 1 300 "again",
   TTOp.start 9 350, TTOp.start 1 400]

/-- Witness for C4: the invariant holds on every ledger entry after the
sample sequence of successful and failing calls. -/
theorem c4_time_tracking_invariant_witness :
    ((runOps trackedTask sampleOps).timeTracking.all
      (fun e => decide (ledgerInv e))) = true :=
  List.all_eq_true.mpr (fun e he => decide_eq_true
    ((c4_time_tracking_invariant trackedTask sampleOps (by decide)).1 e he))
